import Mathlib

set_option autoImplicit false

/-!
Shallow embedding of `src/ext/common/SafeLibev.h` (class `Passenger::SafeLibev`).

The class guards a `vector<Command> commands` and an `unsigned int nextCommandId`
with a mutex; foreign threads append commands and the reactor thread drains them.
We model the queue state as a list of commands plus the counter.  The mutex makes
every public operation atomic with respect to the queue, so each operation is a
pure function on this state.  Callbacks (`boost::function<void()>`) are modelled
by an inductive type `CB` keeping the structure the class itself builds
(`boost::bind(&SafeLibev::runAndNotify, ...)`, `boost::bind(&SafeLibev::runAfter,
this, timeout, callback)`); a user-supplied callback is opaque data of type `α`.
Side effects that the operations perform outside the queue (invoking a callback
in-line, arming a libev timer via `ev_once`, signalling `done`/`cond`, and
`ev_async_send`) are recorded as an explicit event trace.  An empty
`boost::function` (a null callback) is modelled by `Option.none`; the
`assert(callback != NULL)` lines become an `Except` error.
-/

namespace Passenger

/-- Model of a `boost::function<void ()>` value as the class builds them:
a user callback, the `runAndNotify` wrapper that `runSync` enqueues, or the
`boost::bind(&SafeLibev::runAfter, this, timeout, callback)` closure that
`runAfterTS` enqueues. -/
inductive CB (α : Type) where
  | user (a : α)
  | runAndNotify (inner : CB α)
  | scheduleAfter (timeout : Nat) (inner : CB α)
deriving DecidableEq, Repr

/-- Translation of `SafeLibev::MAX_COMMAND_ID` (2^28 - 1). -/
def MAX_COMMAND_ID : Nat := 268435455

/-- Translation of `struct Command`.  In the source `id` is a 31-bit bitfield
and `canceled` a 1-bit bitfield; the constructor `Command(_id, _callback)`
stores `_id` into the 31-bit field (hence modulo 2^31) and sets
`canceled = false`. -/
structure Command (α : Type) where
  callback : CB α
  id : Nat
  canceled : Bool
deriving DecidableEq, Repr

/-- Translation of the constructor `Command(unsigned int _id, const Callback&)`:
the 31-bit `id` bitfield truncates the stored value. -/
def Command.mk31 {α : Type} (i : Nat) (cb : CB α) : Command α :=
  ⟨cb, i % 2 ^ 31, false⟩

/-- Observable side effects of the operations, outside the queue state:
running a user callback in-line, arming a one-shot libev timer
(`ev_once(loop, -1, 0, timeout / 1000.0, timeoutHandler, ...)` inside
`runAfter`; we record the millisecond argument), setting a `done` flag and
signalling the condition variable (`runAndNotify`), and `ev_async_send`. -/
inductive Event (α : Type) where
  | userRun (a : α)
  | timerArmed (timeout : Nat) (cb : CB α)
  | notified
  | asyncSent
deriving DecidableEq, Repr

/-- Invoking a callback value (`callback()` in the source): a user callback
runs the user code; `runAndNotify` (see `SafeLibev::runAndNotify`) invokes the
wrapped callback and then sets `done` and notifies the condition variable;
the bound `runAfter` closure calls `runAfter(timeout, inner)`, which arms the
timer via `ev_once` and returns without running `inner`. -/
def CB.invoke {α : Type} : CB α → List (Event α)
  | .user a => [.userRun a]
  | .runAndNotify c => CB.invoke c ++ [.notified]
  | .scheduleAfter t c => [.timerArmed t c]

/-- The queue state of a `SafeLibev` object: the `vector<Command> commands`
and the `unsigned int nextCommandId`, both guarded by `syncher`. -/
structure SafeLibev (α : Type) where
  commands : List (Command α)
  nextCommandId : Nat
deriving DecidableEq, Repr

namespace SafeLibev

/-- Queue state established by the constructor `SafeLibev(struct ev_loop*)`:
no commands yet and `nextCommandId = 1`. -/
def init (α : Type) : SafeLibev α := ⟨[], 1⟩

/-- Translation of `SafeLibev::incNextCommandId`: wrap from `MAX_COMMAND_ID`
back to 1, otherwise `nextCommandId++` (an `unsigned int`, hence modulo 2^32). -/
def incNextCommandId (n : Nat) : Nat :=
  if n = MAX_COMMAND_ID then 1 else (n + 1) % 2 ^ 32

/-- Value of `nextCommandId` after `k` submissions from a fresh object
(each submission calls `incNextCommandId` once). -/
def idAfter : Nat → Nat
  | 0 => 1
  | k + 1 => incNextCommandId (idAfter k)

/-- The loop body of `SafeLibev::runCommands` over the drained copy of the
vector: for each command in order, if `!it->canceled` then `it->callback()`.
Returns the trace of all invocations. -/
def execLoop {α : Type} : List (Command α) → List (Event α)
  | [] => []
  | c :: rest => if c.canceled then execLoop rest else c.callback.invoke ++ execLoop rest

/-- Translation of `SafeLibev::runCommands`: under the lock, copy `commands`
and clear the member, then (unlocked) invoke every non-canceled command of the
copy in order.  Returns the new state and the execution trace. -/
def runCommands {α : Type} (s : SafeLibev α) : SafeLibev α × List (Event α) :=
  ({ s with commands := [] }, execLoop s.commands)

/-- The scan loop of `SafeLibev::cancelCommand`: walk the vector in order;
at the first command with `it->id == id`, set `it->canceled = true` and
return `true`; if the loop finishes, return `false`. -/
def cancelScan {α : Type} (i : Nat) : List (Command α) → List (Command α) × Bool
  | [] => ([], false)
  | c :: rest =>
    if c.id = i then ({ c with canceled := true } :: rest, true)
    else
      let r := cancelScan i rest
      (c :: r.1, r.2)

/-- Translation of `SafeLibev::cancelCommand`: `id == 0` returns `false`
immediately; otherwise scan the live vector under the lock. -/
def cancelCommand {α : Type} (i : Nat) (s : SafeLibev α) : SafeLibev α × Bool :=
  if i = 0 then (s, false)
  else
    let r := cancelScan i s.commands
    ({ s with commands := r.1 }, r.2)

/-- Translation of the body of `SafeLibev::runLater` after its assertion:
under the lock, `push_back(Command(nextCommandId, callback))`, remember
`nextCommandId` as the result, `incNextCommandId()`; then `ev_async_send`
and return the remembered id.  No callback is invoked. -/
def runLaterCore {α : Type} (cb : CB α) (s : SafeLibev α) :
    SafeLibev α × List (Event α) × Nat :=
  (⟨s.commands ++ [Command.mk31 s.nextCommandId cb], incNextCommandId s.nextCommandId⟩,
   [Event.asyncSent], s.nextCommandId)

/-- Translation of the body of `SafeLibev::runSync` after its assertion:
under the lock, push `Command(nextCommandId, bind(&SafeLibev::runAndNotify,
this, &callback, &done))`, `incNextCommandId()`, `ev_async_send`, then wait
on the condition variable until `done` (the wait itself adds no event). -/
def runSyncCore {α : Type} (cb : CB α) (s : SafeLibev α) :
    SafeLibev α × List (Event α) :=
  (⟨s.commands ++ [Command.mk31 s.nextCommandId (CB.runAndNotify cb)],
    incNextCommandId s.nextCommandId⟩,
   [Event.asyncSent])

/-- Translation of the body of `SafeLibev::runAfter` after its assertion:
`ev_once(loop, -1, 0, timeout / 1000.0, timeoutHandler, new Callback(callback))`
arms a one-shot timer and returns; the queue state is untouched. -/
def runAfterCore {α : Type} (t : Nat) (cb : CB α) (s : SafeLibev α) :
    SafeLibev α × List (Event α) :=
  (s, [Event.timerArmed t cb])

/-- Translation of the body of `SafeLibev::run` after its assertion: if
`onEventLoopThread()` then `callback()` in-line, else `runSync(callback)`.
The Boolean argument is the value of `onEventLoopThread()` in the calling
context. -/
def runCore {α : Type} (onLoop : Bool) (cb : CB α) (s : SafeLibev α) :
    SafeLibev α × List (Event α) :=
  if onLoop then (s, cb.invoke) else runSyncCore cb s

/-- Translation of the body of `SafeLibev::runAfterTS` after its assertion:
if `onEventLoopThread()` then `runAfter(timeout, callback)`, else
`runLater(boost::bind(&SafeLibev::runAfter, this, timeout, callback))`
(the bound closure is never null, so `runLater`'s assertion passes and its
body runs; the returned id is discarded). -/
def runAfterTSCore {α : Type} (onLoop : Bool) (t : Nat) (cb : CB α) (s : SafeLibev α) :
    SafeLibev α × List (Event α) :=
  if onLoop then runAfterCore t cb s
  else
    let r := runLaterCore (CB.scheduleAfter t cb) s
    (r.1, r.2.1)

/-- Failure mode of the `assert(callback != NULL)` lines. -/
inductive OpError where
  | assertionFailed
deriving DecidableEq, Repr

/-- Full `SafeLibev::run`: `assert(callback != NULL)` then the dispatch body. -/
def run {α : Type} (onLoop : Bool) (cb : Option (CB α)) (s : SafeLibev α) :
    Except OpError (SafeLibev α × List (Event α)) :=
  match cb with
  | none => .error .assertionFailed
  | some c => .ok (runCore onLoop c s)

/-- Full `SafeLibev::runSync`: `assert(callback != NULL)` then submit-and-wait. -/
def runSync {α : Type} (cb : Option (CB α)) (s : SafeLibev α) :
    Except OpError (SafeLibev α × List (Event α)) :=
  match cb with
  | none => .error .assertionFailed
  | some c => .ok (runSyncCore c s)

/-- Full `SafeLibev::runAfter`: `assert(callback != NULL)` then arm the timer. -/
def runAfter {α : Type} (t : Nat) (cb : Option (CB α)) (s : SafeLibev α) :
    Except OpError (SafeLibev α × List (Event α)) :=
  match cb with
  | none => .error .assertionFailed
  | some c => .ok (runAfterCore t c s)

/-- Full `SafeLibev::runAfterTS`: `assert(callback != NULL)` then dispatch. -/
def runAfterTS {α : Type} (onLoop : Bool) (t : Nat) (cb : Option (CB α)) (s : SafeLibev α) :
    Except OpError (SafeLibev α × List (Event α)) :=
  match cb with
  | none => .error .assertionFailed
  | some c => .ok (runAfterTSCore onLoop t c s)

/-- Full `SafeLibev::runLater`: `assert(callback != NULL)` then the body.
The source never consults `onEventLoopThread()` here; the Boolean argument
records the calling context only, so that thread-independence is statable. -/
def runLater {α : Type} (_onLoop : Bool) (cb : Option (CB α)) (s : SafeLibev α) :
    Except OpError (SafeLibev α × List (Event α) × Nat) :=
  match cb with
  | none => .error .assertionFailed
  | some c => .ok (runLaterCore c s)

/-- Removal of the first command carrying a given id (a statement-side notion:
the drained behaviour after a successful cancellation coincides with the
behaviour had the canceled command never been submitted). -/
def eraseFirstId {α : Type} (i : Nat) : List (Command α) → List (Command α)
  | [] => []
  | c :: rest => if c.id = i then rest else c :: eraseFirstId i rest

end SafeLibev

end Passenger

namespace Passenger

namespace SafeLibev

/-! Helper lemmas shared between claims. -/

theorem execLoop_eq_filter {α : Type} (l : List (Command α)) :
    execLoop l = ((l.filter fun c => !c.canceled).map Command.callback).flatMap CB.invoke := by
  induction l with
  | nil => simp [execLoop]
  | cons c rest ih =>
    by_cases h : c.canceled
    · simp [execLoop, h, ih]
    · simp [execLoop, h, ih]

theorem execLoop_append {α : Type} (l m : List (Command α)) :
    execLoop (l ++ m) = execLoop l ++ execLoop m := by
  induction l with
  | nil => simp [execLoop]
  | cons c rest ih =>
    by_cases h : c.canceled
    · simp [execLoop, h, ih]
    · simp [execLoop, h, ih]

theorem cancelScan_found_iff {α : Type} (i : Nat) (l : List (Command α)) :
    (cancelScan i l).2 = true ↔ ∃ c ∈ l, c.id = i := by
  induction l with
  | nil => simp [cancelScan]
  | cons c rest ih =>
    by_cases h : c.id = i
    · simp [cancelScan, h]
    · simp [cancelScan, h, ih]

theorem cancelScan_not_found {α : Type} (i : Nat) (l : List (Command α))
    (h : (cancelScan i l).2 = false) : (cancelScan i l).1 = l := by
  induction l with
  | nil => simp [cancelScan]
  | cons c rest ih =>
    by_cases hc : c.id = i
    · simp [cancelScan, hc] at h
    · simp [cancelScan, hc] at h ⊢
      exact ih h

theorem cancelScan_found_set {α : Type} (i : Nat) (l : List (Command α))
    (h : (cancelScan i l).2 = true) :
    ∃ k, ∃ hk : k < l.length,
      (l.get ⟨k, hk⟩).id = i ∧
      (∀ c ∈ l.take k, c.id ≠ i) ∧
      (cancelScan i l).1 = l.set k { l.get ⟨k, hk⟩ with canceled := true } := by
  induction l with
  | nil => simp [cancelScan] at h
  | cons c rest ih =>
    by_cases hc : c.id = i
    · refine ⟨0, by simp, by simpa using hc, by simp, ?_⟩
      simp [cancelScan, hc]
    · simp [cancelScan, hc] at h
      obtain ⟨k, hk, hid, htake, hset⟩ := ih h
      refine ⟨k + 1, by simpa using Nat.succ_lt_succ hk, by simpa using hid, ?_, ?_⟩
      · intro d hd
        rcases List.mem_cons.mp (by simpa using hd) with rfl | hd'
        · exact hc
        · exact htake d hd'
      · simp [cancelScan, hc, hset]

theorem cancelScan_exec_erase {α : Type} (i : Nat) (l : List (Command α))
    (h : (cancelScan i l).2 = true) :
    execLoop (cancelScan i l).1 = execLoop (eraseFirstId i l) := by
  induction l with
  | nil => simp [cancelScan] at h
  | cons c rest ih =>
    by_cases hc : c.id = i
    · simp [cancelScan, hc, eraseFirstId, execLoop]
    · simp [cancelScan, hc] at h
      by_cases hcan : c.canceled
      · simp [cancelScan, hc, eraseFirstId, execLoop, hcan, ih h]
      · simp [cancelScan, hc, eraseFirstId, execLoop, hcan, ih h]

theorem cancelScan_again {α : Type} (i : Nat) (l : List (Command α))
    (h : (cancelScan i l).2 = true) :
    cancelScan i (cancelScan i l).1 = ((cancelScan i l).1, true) := by
  induction l with
  | nil => simp [cancelScan] at h
  | cons c rest ih =>
    by_cases hc : c.id = i
    · simp [cancelScan, hc]
    · simp [cancelScan, hc] at h
      have := ih h
      simp [cancelScan, hc, this]

theorem cancelCommand_ne_zero {α : Type} (i : Nat) (s : SafeLibev α) (h : i ≠ 0) :
    cancelCommand i s = ({ s with commands := (cancelScan i s.commands).1 },
      (cancelScan i s.commands).2) := by
  simp [cancelCommand, h]

theorem incNextCommandId_mem (n : Nat) (h1 : 1 ≤ n) (h2 : n ≤ MAX_COMMAND_ID) :
    1 ≤ incNextCommandId n ∧ incNextCommandId n ≤ MAX_COMMAND_ID := by
  unfold incNextCommandId
  by_cases h : n = MAX_COMMAND_ID
  · simp [h, MAX_COMMAND_ID]
  · have hlt : n < MAX_COMMAND_ID := lt_of_le_of_ne h2 h
    have hmod : (n + 1) % 2 ^ 32 = n + 1 := by
      apply Nat.mod_eq_of_lt
      have : n + 1 ≤ MAX_COMMAND_ID := hlt
      calc n + 1 ≤ MAX_COMMAND_ID := this
        _ < 2 ^ 32 := by norm_num [MAX_COMMAND_ID]
    simp only [if_neg h, hmod]
    exact ⟨Nat.le_succ_of_le h1, hlt⟩

/-! The claims. -/

/-- Claim C1: a drain (`runCommands`) removes all pending commands from the
queue, leaving it empty (and leaving the id counter alone), and its execution
trace is exactly the invocation of the non-canceled commands' callbacks in
submission (FIFO) order; canceled commands are skipped and never executed.
The atomicity of the swap is the lock acquisition in the source, which the
state-function model renders as a single step. -/
theorem claim1_runCommands_drain {α : Type} (s : SafeLibev α) :
    (runCommands s).1.commands = [] ∧
    (runCommands s).1.nextCommandId = s.nextCommandId ∧
    (runCommands s).2 =
      ((s.commands.filter fun c => !c.canceled).map Command.callback).flatMap CB.invoke :=
  ⟨rfl, rfl, execLoop_eq_filter s.commands⟩

/-- Claim C2, counterexample: the claim says `cancelCommand i` returns `true`
iff the live sequence holds a command with id `i` that is *not yet canceled*.
On a queue whose only command with id 1 is already canceled, the scan still
matches on the id alone, marks it again and returns `true`, although no
not-yet-canceled command with id 1 exists. -/
theorem claim2_counterexample :
    (cancelCommand 1 (⟨[⟨CB.user 0, 1, true⟩], 2⟩ : SafeLibev Nat)).2 = true ∧
    ¬ (∃ c ∈ (⟨[⟨CB.user 0, 1, true⟩], 2⟩ : SafeLibev Nat).commands,
        c.id = 1 ∧ c.canceled = false) := by
  constructor
  · rfl
  · decide

/-- Claim C2, amended: for `i ≠ 0`, `cancelCommand i` returns `true` iff the
live sequence contains a command with id `i` — whether or not it is already
canceled.  On `true` it marks the first such command canceled (leaving every
other command and the id counter unchanged); on `false` the whole state is
unchanged. -/
theorem claim2_cancelCommand_found {α : Type} (i : Nat) (s : SafeLibev α) (h : i ≠ 0) :
    ((cancelCommand i s).2 = true ↔ ∃ c ∈ s.commands, c.id = i) ∧
    ((cancelCommand i s).2 = false → (cancelCommand i s).1 = s) ∧
    ((cancelCommand i s).2 = true →
      (cancelCommand i s).1.nextCommandId = s.nextCommandId ∧
      ∃ k, ∃ hk : k < s.commands.length,
        (s.commands.get ⟨k, hk⟩).id = i ∧
        (∀ c ∈ s.commands.take k, c.id ≠ i) ∧
        (cancelCommand i s).1.commands =
          s.commands.set k { s.commands.get ⟨k, hk⟩ with canceled := true }) := by
  rw [cancelCommand_ne_zero i s h]
  refine ⟨cancelScan_found_iff i s.commands, ?_, ?_⟩
  · intro hf
    have hl := cancelScan_not_found i s.commands hf
    cases s
    simp only at hl
    simp [hl]
  · intro ht
    exact ⟨rfl, cancelScan_found_set i s.commands ht⟩

/-- Claim C2, witness for the amended theorem at a concrete queue. -/
theorem claim2_cancelCommand_found_witness :
    (cancelCommand 5 (⟨[⟨CB.user 0, 5, false⟩], 6⟩ : SafeLibev Nat)).2 = true :=
  (claim2_cancelCommand_found 5 (⟨[⟨CB.user 0, 5, false⟩], 6⟩ : SafeLibev Nat)
      (by decide)).1.mpr ⟨⟨CB.user 0, 5, false⟩, by decide⟩

/-- Claim C3: when `cancelCommand i` returns `true`, the marked command is
skipped by every later drain: whatever commands are appended afterwards
(`rest`), the drain's execution trace equals the trace of a queue in which the
canceled command was never submitted at all (its callback is never invoked).
Later cancellations can only mark further commands, never unmark this one. -/
theorem claim3_cancel_true_not_executed {α : Type} (i : Nat) (s s2 : SafeLibev α)
    (h : cancelCommand i s = (s2, true)) (rest : List (Command α)) :
    (runCommands { s2 with commands := s2.commands ++ rest }).2 =
      (runCommands { s with commands := eraseFirstId i s.commands ++ rest }).2 := by
  have hi : i ≠ 0 := by
    intro h0
    subst h0
    simp [cancelCommand] at h
  rw [cancelCommand_ne_zero i s hi] at h
  have hfound : (cancelScan i s.commands).2 = true := by
    have := congrArg Prod.snd h
    simpa using this
  have hcmds : s2.commands = (cancelScan i s.commands).1 := by
    have := congrArg (fun p => (Prod.fst p).commands) h
    simpa using this.symm
  show execLoop (s2.commands ++ rest) = execLoop (eraseFirstId i s.commands ++ rest)
  rw [hcmds, execLoop_append, execLoop_append, cancelScan_exec_erase i s.commands hfound]

/-- Claim C3, witness: cancel the single pending command, then drain. -/
theorem claim3_cancel_true_not_executed_witness :
    (runCommands { (⟨[⟨CB.user 0, 1, true⟩], 2⟩ : SafeLibev Nat) with
        commands := (⟨[⟨CB.user 0, 1, true⟩], 2⟩ : SafeLibev Nat).commands ++ [] }).2 =
    (runCommands { (⟨[⟨CB.user 0, 1, false⟩], 2⟩ : SafeLibev Nat) with
        commands :=
          eraseFirstId 1 (⟨[⟨CB.user 0, 1, false⟩], 2⟩ : SafeLibev Nat).commands ++ [] }).2 :=
  claim3_cancel_true_not_executed 1 ⟨[⟨CB.user 0, 1, false⟩], 2⟩
    ⟨[⟨CB.user 0, 1, true⟩], 2⟩ (by decide) []

/-- Claim C4: `cancelCommand 0` returns `false` immediately and leaves the
queue (and the whole state) unchanged, whatever the queue contents. -/
theorem claim4_cancel_zero {α : Type} (s : SafeLibev α) :
    cancelCommand 0 s = (s, false) := rfl

/-- Claim C5: the next-command-id counter starts at 1, every reachable value
(after any number of submissions) stays within `1 .. MAX_COMMAND_ID`, and one
step advances by exactly one except that from `MAX_COMMAND_ID` it wraps back
to 1; in particular the counter — hence every assigned command id — is never 0. -/
theorem claim5_id_counter :
    (init Nat).nextCommandId = 1 ∧
    (∀ k, 1 ≤ idAfter k ∧ idAfter k ≤ MAX_COMMAND_ID) ∧
    (∀ n, 1 ≤ n → n ≤ MAX_COMMAND_ID →
      incNextCommandId n ≠ 0 ∧
      (n < MAX_COMMAND_ID → incNextCommandId n = n + 1) ∧
      (n = MAX_COMMAND_ID → incNextCommandId n = 1)) := by
  refine ⟨rfl, ?_, ?_⟩
  · intro k
    induction k with
    | zero => exact ⟨Nat.le_refl 1, by norm_num [idAfter, MAX_COMMAND_ID]⟩
    | succ k ih => exact incNextCommandId_mem (idAfter k) ih.1 ih.2
  · intro n h1 h2
    refine ⟨?_, ?_, ?_⟩
    · have := (incNextCommandId_mem n h1 h2).1
      omega
    · intro hlt
      have hne : n ≠ MAX_COMMAND_ID := Nat.ne_of_lt hlt
      have hmod : (n + 1) % 2 ^ 32 = n + 1 := by
        apply Nat.mod_eq_of_lt
        unfold MAX_COMMAND_ID at hlt
        omega
      unfold incNextCommandId
      rw [if_neg hne, hmod]
    · intro he
      simp [incNextCommandId, he]

/-- Claim C5, witness: one wrapping step and one ordinary step. -/
theorem claim5_id_counter_witness :
    incNextCommandId 268435455 = 1 ∧ incNextCommandId 7 = 8 :=
  ⟨(claim5_id_counter.2.2 268435455 (by norm_num) (by norm_num [MAX_COMMAND_ID])).2.2
      (by norm_num [MAX_COMMAND_ID]),
   (claim5_id_counter.2.2 7 (by norm_num) (by norm_num [MAX_COMMAND_ID])).2.1
      (by norm_num [MAX_COMMAND_ID])⟩

/-- Claim C6: `runLater` appends one new command holding the given callback
with the current `nextCommandId`, advances the counter (with wraparound),
signals the wake-up (`ev_async_send`) and returns the assigned id; its trace
contains no callback invocation (never executes the callback immediately),
and its behaviour is identical whichever thread calls it.  The hypothesis is
the documented counter invariant (the id bitfield is 31 bits wide, so the
stored id equals the counter only below 2^31, which the invariant grants). -/
theorem claim6_runLater {α : Type} (onLoop : Bool) (cb : CB α) (s : SafeLibev α)
    (h : s.nextCommandId ≤ MAX_COMMAND_ID) :
    runLater onLoop (some cb) s =
      .ok (⟨s.commands ++ [⟨cb, s.nextCommandId, false⟩], incNextCommandId s.nextCommandId⟩,
           [Event.asyncSent], s.nextCommandId) ∧
    (∀ t : Bool, runLater t (some cb) s = runLater onLoop (some cb) s) := by
  have hm : s.nextCommandId % 2 ^ 31 = s.nextCommandId :=
    Nat.mod_eq_of_lt (lt_of_le_of_lt h (by norm_num [MAX_COMMAND_ID]))
  constructor
  · unfold runLater runLaterCore Command.mk31
    rw [hm]
  · intro t
    rfl

/-- Claim C6, witness: submit one callback to a fresh queue. -/
theorem claim6_runLater_witness :
    runLater true (some (CB.user 0)) (init Nat) =
      .ok (⟨(init Nat).commands ++ [⟨CB.user 0, (init Nat).nextCommandId, false⟩],
            incNextCommandId (init Nat).nextCommandId⟩,
           [Event.asyncSent], (init Nat).nextCommandId) :=
  (claim6_runLater true (CB.user 0) (init Nat) (by norm_num [init, MAX_COMMAND_ID])).1

/-- Claim C7: on the reactor thread, `run` invokes the callback in-line —
for a user callback, exactly one invocation — before returning, with the
pending command sequence and the id counter untouched; off-thread, `run`
does exactly what `runSync` does (including on a null callback). -/
theorem claim7_run {α : Type} (cb : CB α) (a : α) (s : SafeLibev α) :
    run true (some cb) s = .ok (s, CB.invoke cb) ∧
    run true (some (CB.user a)) s = .ok (s, [Event.userRun a]) ∧
    (∀ c : Option (CB α), run false c s = runSync c s) := by
  refine ⟨rfl, rfl, ?_⟩
  intro c
  cases c <;> rfl

/-- Claim C8: on the reactor thread `runAfterTS` is exactly `runAfter`;
off-thread it submits (via `runLater`'s body) a command wrapping
`runAfter(timeout, callback)`, and invoking that command at drain time
performs exactly what `runAfter` performs — it arms the timer, deferring the
scheduling act but not yet running the timer callback. -/
theorem claim8_runAfterTS {α : Type} (t : Nat) (cb : CB α) (s : SafeLibev α) :
    runAfterTS true t (some cb) s = runAfter t (some cb) s ∧
    runAfterTS false t (some cb) s =
      .ok ((runLaterCore (CB.scheduleAfter t cb) s).1,
           (runLaterCore (CB.scheduleAfter t cb) s).2.1) ∧
    CB.invoke (CB.scheduleAfter t cb) = (runAfterCore t cb s).2 :=
  ⟨rfl, rfl, rfl⟩

/-- Claim C9: every run-family operation (`run`, `runSync`, `runAfter`,
`runAfterTS`, `runLater`) rejects a null callback up front through its
defensive assertion, instead of silently ignoring it. -/
theorem claim9_null_callback {α : Type} (onLoop : Bool) (t : Nat) (s : SafeLibev α) :
    run onLoop (none : Option (CB α)) s = .error OpError.assertionFailed ∧
    runSync (none : Option (CB α)) s = .error OpError.assertionFailed ∧
    runAfter t (none : Option (CB α)) s = .error OpError.assertionFailed ∧
    runAfterTS onLoop t (none : Option (CB α)) s = .error OpError.assertionFailed ∧
    runLater onLoop (none : Option (CB α)) s = .error OpError.assertionFailed :=
  ⟨rfl, rfl, rfl, rfl, rfl⟩

/-- Claim C10: cancelling a live command twice (before any drain) returns
`true` both times, and the second call changes nothing at all: the command
stays canceled and no other command or counter is altered. -/
theorem claim10_cancel_idempotent {α : Type} (i : Nat) (s : SafeLibev α) (h0 : i ≠ 0)
    (h : ∃ c ∈ s.commands, c.id = i) :
    (cancelCommand i s).2 = true ∧
    (cancelCommand i (cancelCommand i s).1).2 = true ∧
    (cancelCommand i (cancelCommand i s).1).1 = (cancelCommand i s).1 := by
  have h1 : (cancelScan i s.commands).2 = true := (cancelScan_found_iff i s.commands).mpr h
  have h2 := cancelScan_again i s.commands h1
  rw [cancelCommand_ne_zero i s h0]
  simp only
  rw [cancelCommand_ne_zero i { s with commands := (cancelScan i s.commands).1 } h0]
  simp only
  refine ⟨h1, ?_, ?_⟩
  · rw [h2]
  · rw [h2]

/-- Claim C10, witness: cancel the same id twice on a one-command queue. -/
theorem claim10_cancel_idempotent_witness :
    (cancelCommand 3 (⟨[⟨CB.user 0, 3, false⟩], 4⟩ : SafeLibev Nat)).2 = true ∧
    (cancelCommand 3
      (cancelCommand 3 (⟨[⟨CB.user 0, 3, false⟩], 4⟩ : SafeLibev Nat)).1).2 = true ∧
    (cancelCommand 3
      (cancelCommand 3 (⟨[⟨CB.user 0, 3, false⟩], 4⟩ : SafeLibev Nat)).1).1 =
      (cancelCommand 3 (⟨[⟨CB.user 0, 3, false⟩], 4⟩ : SafeLibev Nat)).1 :=
  claim10_cancel_idempotent 3 ⟨[⟨CB.user 0, 3, false⟩], 4⟩ (by decide)
    ⟨⟨CB.user 0, 3, false⟩, by decide⟩

end SafeLibev

end Passenger
